import Mathlib

/-
Verification of the passgen generation core: the password and passphrase
generators (GeneratePasswords in password.go, GeneratePassphrases in
passphrase.go) are embedded as Lean functions over explicit byte streams.

Modelling conventions:
  - Go strings are modelled as lists of characters (Char = one rune);
    the case transforms model the Go unicode transforms restricted to
    ASCII, which is exact on every input appearing in the claims.
  - The process-global random source (an io.Reader) is modelled as a
    list of byte values threaded through the generation loop; io.ReadFull
    succeeds exactly when the stream still holds the requested length.
  - Byte values are natural numbers; the extraction code only ever masks
    a single bit out of a byte, which is well defined for any Nat.
  - The Go map-based deduplication yields the set of distinct symbols in
    an unspecified order; we model it with List.dedup.  Every claim below
    is invariant under permutation of the universe (membership, size and
    the index arithmetic depend only on the set and its cardinality), so
    the choice of order decides no claim.
  - uint arithmetic is modelled on Nat: with the validated bounds all
    intermediate values are far below 2 to the 64, so no wrap occurs on
    any reachable input.
  - bitsPerChar is computed in Go as uint(math.Ceil(math.Log2(float64(n)))).
    For every universe size that can exist in memory this float expression
    equals the exact integer ceiling of log2, which is Nat.clog 2 n.
  - An out-of-range slice index panics in Go; the embedding returns none
    from the extraction helpers and a distinguished error from the loop in
    that case, and we prove the case unreachable for plan-sized buffers.
-/

namespace Passgen

/-- Modelled from the spec: the constant AlphabetLengthMin is declared in a
source file absent from this snapshot; section 6 of the spec fixes the
minimum unique-symbol count for password alphabets at 2. -/
def AlphabetLengthMin : Nat := 2

/-- Modelled from the spec: the constant WordListLengthMin is declared in a
source file absent from this snapshot; section 6 of the spec fixes the
minimum unique-word count for passphrase word lists at 2. -/
def WordListLengthMin : Nat := 2

/-- Modelled from the spec: the casing selector constants are declared in a
source file absent from this snapshot.  Only their distinctness matters;
the numeric values are arbitrary representatives of the uint8 type
PassphraseCasing. -/
def PassphraseCasingLower : Nat := 0

/-- Modelled from the spec: see PassphraseCasingLower. -/
def PassphraseCasingUpper : Nat := 1

/-- Modelled from the spec: see PassphraseCasingLower. -/
def PassphraseCasingTitle : Nat := 2

/-- Modelled from the spec: see PassphraseCasingLower. -/
def PassphraseCasingNone : Nat := 3

/-- Go unicode.IsLetter-or-digit-or-underscore test used by strings.Title
to decide word boundaries, restricted to ASCII: every ASCII character
other than a letter, a digit or an underscore is a separator. -/
def isSepRune (c : Char) : Bool := !(c.isAlphanum || c == '_')

/-- Helper for the strings.Title model: title-case a character exactly when
the previous character was a separator (Go keeps the previous rune in a
closure; the initial previous rune is a space). -/
def goTitleAux : Char → List Char → List Char
  | _, [] => []
  | prev, c :: cs =>
    (if isSepRune prev then c.toUpper else c) :: goTitleAux c cs

/-- Model of Go strings.Title restricted to ASCII: the first letter of each
word is mapped to title case (upper case in ASCII), every other character
is unaffected. -/
def goTitle (w : List Char) : List Char := goTitleAux ' ' w

/-- Case transform applied to each word before deduplication, following the
switch statement inside the deduplication loop of GeneratePassphrases.
The final branch is the PassphraseCasingNone case: the switch has exactly
the four selector cases and the casing argument has already been validated
when this transform runs. -/
def applyCasing (casing : Nat) (w : List Char) : List Char :=
  if casing = PassphraseCasingLower then w.map Char.toLower
  else if casing = PassphraseCasingUpper then w.map Char.toUpper
  else if casing = PassphraseCasingTitle then goTitle w
  else w

/-- Model of io.ReadFull on the byte-stream random source: reading n bytes
succeeds exactly when the stream holds at least n bytes, consuming them;
an empty stream reports EOF and a short stream reports unexpected EOF,
as the io package does. -/
def readFull (n : Nat) (src : List Nat) : Except String (List Nat × List Nat) :=
  if n = 0 then .ok ([], src)
  else if src.length = 0 then .error "EOF"
  else if src.length < n then .error "unexpected EOF"
  else .ok (src.take n, src.drop n)

/-- Inner bit loop of the extraction (the charBitIdx loop): reads the given
number of bits from the buffer, left-shifting the accumulator and OR-ing
in the bit selected by masking the current byte with 0x80 shifted right by
the bit position, then advancing the bit cursor and, on a byte boundary,
the byte cursor.  Returns none when the byte index leaves the buffer,
which in Go would be an index-out-of-range panic. -/
def extractSymbolBits (buf : List Nat) :
    Nat → Nat → Nat → Nat → Option (Nat × Nat × Nat)
  | 0, acc, bitIdx, byteIdx => some (acc, bitIdx, byteIdx)
  | remBits + 1, acc, bitIdx, byteIdx =>
    match buf[byteIdx]? with
    | none => none
    | some b =>
      extractSymbolBits buf remBits
        ((acc <<< 1) ||| ((b &&& (128 >>> (bitIdx % 8))) >>> (7 - bitIdx % 8)))
        (bitIdx + 1)
        (if (bitIdx + 1) % 8 = 0 then byteIdx + 1 else byteIdx)

/-- Outer symbol loop of the extraction (the j loop of GeneratePasswords):
for each remaining symbol, read bitsPer bits starting from the running
cursor, reduce the assembled value modulo the universe size and look the
symbol up in the universe.  The accumulator restarts at zero per symbol
while the bit and byte cursors run on across the whole artifact. -/
def extractSymbols {α : Type} (buf : List Nat) (univ : List α) (bitsPer : Nat) :
    Nat → Nat → Nat → Option (List α)
  | 0, _, _ => some []
  | remSyms + 1, bitIdx, byteIdx =>
    match extractSymbolBits buf bitsPer 0 bitIdx byteIdx with
    | none => none
    | some (acc, bitIdx1, byteIdx1) =>
      match univ[acc % univ.length]? with
      | none => none
      | some s =>
        match extractSymbols buf univ bitsPer remSyms bitIdx1 byteIdx1 with
        | none => none
        | some rest => some (s :: rest)

/-- Outer word loop of GeneratePassphrases: identical bit extraction, but
the looked-up word is written to the artifact followed by the separator
whenever the word is not the last one.  The argument counts the words
still to produce, so remWords > 0 is exactly the condition
j < wordCount - 1 of the Go code. -/
def buildPassphrase (buf : List Nat) (wordSet : List (List Char))
    (bitsPer : Nat) (sep : Char) :
    Nat → Nat → Nat → Option (List Char)
  | 0, _, _ => some []
  | remWords + 1, bitIdx, byteIdx =>
    match extractSymbolBits buf bitsPer 0 bitIdx byteIdx with
    | none => none
    | some (acc, bitIdx1, byteIdx1) =>
      match wordSet[acc % wordSet.length]? with
      | none => none
      | some w =>
        match buildPassphrase buf wordSet bitsPer sep remWords bitIdx1 byteIdx1 with
        | none => none
        | some rest =>
          some (w ++ (if remWords > 0 then sep :: rest else rest))

/-- Fuel-based ceiling of log2, used so that the definition is structural
and the kernel can evaluate it on concrete inputs; any fuel of at least m
computes the same value (see clog2Fuel_eq_clog). -/
def clog2Fuel : Nat → Nat → Nat
  | 0, _ => 0
  | fuel + 1, m => if m ≤ 1 then 0 else clog2Fuel fuel ((m + 1) / 2) + 1

/-- Bits needed per symbol: the integer value of the Go float expression
uint(math.Ceil(math.Log2(float64(n)))), namely the ceiling of log2; the
lemma bitsPerSymbol_eq_clog identifies it with Nat.clog 2. -/
def bitsPerSymbol (n : Nat) : Nat := clog2Fuel n n

/-- Bytes needed for a bit count, exactly as computed in the source: the
truncating quotient by 8, incremented when a remainder is left. -/
def bytesForBits (bits : Nat) : Nat :=
  if bits % 8 > 0 then bits / 8 + 1 else bits / 8

/-- Artifact loop of GeneratePasswords: for each remaining password, fill a
fresh buffer of bytesPer bytes from the random source (aborting the whole
call on failure) and extract pwLen characters from it.  Returns the
passwords together with the remaining stream. -/
def passwordLoop (charSet : List Char) (bitsPer bytesPer pwLen : Nat) :
    Nat → List Nat → Except String (List (List Char) × List Nat)
  | 0, src => .ok ([], src)
  | remCount + 1, src =>
    match readFull bytesPer src with
    | .error e => .error e
    | .ok (buf, src1) =>
      match extractSymbols buf charSet bitsPer pwLen 0 0 with
      | none => .error "index out of range"
      | some pw =>
        match passwordLoop charSet bitsPer bytesPer pwLen remCount src1 with
        | .error e => .error e
        | .ok (pws, src2) => .ok (pw :: pws, src2)

/-- Model of GeneratePasswords from password.go.  The count and length
bounds are declared in a source file absent from this snapshot; the spec
calls them configured values, so they are passed as explicit parameters
here.  The alphabet is the list of runes of the Go string argument and
the random source is passed explicitly instead of being a global. -/
def GeneratePasswords (countMin countMax lengthMin lengthMax : Nat)
    (count length : Nat) (alphabet : List Char) (randSource : List Nat) :
    Except String (List (List Char)) :=
  if count < countMin ∨ count > countMax then
    .error ("count must be at least " ++ toString countMin ++
      " and at most " ++ toString countMax)
  else if length < lengthMin ∨ length > lengthMax then
    .error ("length must be at least " ++ toString lengthMin ++
      " and at most " ++ toString lengthMax)
  else if (alphabet.dedup).length < AlphabetLengthMin then
    .error ("alphabet must contain at least " ++ toString AlphabetLengthMin ++
      " unique characters")
  else
    match passwordLoop alphabet.dedup
        (bitsPerSymbol (alphabet.dedup).length)
        (bytesForBits (bitsPerSymbol (alphabet.dedup).length * length))
        length count randSource with
    | .error e => .error e
    | .ok (pws, _) => .ok pws

/-- Artifact loop of GeneratePassphrases, mirroring passwordLoop with the
word join of buildPassphrase. -/
def passphraseLoop (wordSet : List (List Char)) (bitsPer bytesPer wc : Nat)
    (sep : Char) :
    Nat → List Nat → Except String (List (List Char) × List Nat)
  | 0, src => .ok ([], src)
  | remCount + 1, src =>
    match readFull bytesPer src with
    | .error e => .error e
    | .ok (buf, src1) =>
      match buildPassphrase buf wordSet bitsPer sep wc 0 0 with
      | none => .error "index out of range"
      | some ph =>
        match passphraseLoop wordSet bitsPer bytesPer wc sep remCount src1 with
        | .error e => .error e
        | .ok (phs, src2) => .ok (ph :: phs, src2)

/-- Model of GeneratePassphrases from passphrase.go.  Bounds are explicit
parameters for the same reason as in GeneratePasswords; the casing value
ranges over the numeric carrier of the uint8 selector type. -/
def GeneratePassphrases (countMin countMax wcMin wcMax : Nat)
    (count wordCount : Nat) (sep : Char) (casing : Nat)
    (wordList : List (List Char)) (randSource : List Nat) :
    Except String (List (List Char)) :=
  if count < countMin ∨ count > countMax then
    .error ("count must be at least " ++ toString countMin ++
      " and at most " ++ toString countMax)
  else if wordCount < wcMin ∨ wordCount > wcMax then
    .error ("word count must be at least " ++ toString wcMin ++
      " and at most " ++ toString wcMax)
  else if ¬ (casing = PassphraseCasingLower ∨ casing = PassphraseCasingUpper ∨
      casing = PassphraseCasingTitle ∨ casing = PassphraseCasingNone) then
    .error "invalid word casing"
  else if ((wordList.map (applyCasing casing)).dedup).length < WordListLengthMin then
    .error ("word list must contain at least " ++ toString WordListLengthMin ++
      " unique words")
  else
    match passphraseLoop ((wordList.map (applyCasing casing)).dedup)
        (bitsPerSymbol ((wordList.map (applyCasing casing)).dedup).length)
        (bytesForBits
          (bitsPerSymbol ((wordList.map (applyCasing casing)).dedup).length * wordCount))
        wordCount sep count randSource with
    | .error e => .error e
    | .ok (phs, _) => .ok phs

/-- Specification-side view of the buffer as a big-endian bitstream: bit i
is the bit of weight 2 to the (7 - i mod 8) of byte i / 8, so the most
significant bit of byte 0 comes first. -/
def bitAt (buf : List Nat) (i : Nat) : Nat :=
  ((buf.getD (i / 8) 0) >>> (7 - i % 8)) &&& 1

/-- Specification-side assembly of a run of bits into an unsigned integer,
most significant bit first: left shift and OR over the bits at positions
start, start + 1, ..., start + len - 1. -/
def assembleBits (buf : List Nat) (start len : Nat) : Nat :=
  (List.range len).foldl (fun a k => (a <<< 1) ||| bitAt buf (start + k)) 0

/-- Specification-side index of symbol k: the bits of the k-th consecutive
disjoint range of length bitsPer, assembled and reduced modulo n. -/
def specIndex (buf : List Nat) (bitsPer n k : Nat) : Nat :=
  assembleBits buf (k * bitsPer) bitsPer % n

/-- Specification-side join: one separator between each pair of consecutive
words, none leading or trailing. -/
def joinWithSep (sep : Char) : List (List Char) → List Char
  | [] => []
  | [w] => w
  | w :: ws => w ++ sep :: joinWithSep sep ws

lemma clog2Fuel_eq_clog : ∀ fuel m, m ≤ fuel → clog2Fuel fuel m = Nat.clog 2 m := by
  intro fuel
  induction fuel with
  | zero =>
    intro m hm
    have hm0 : m = 0 := by omega
    subst hm0
    simp [clog2Fuel, Nat.clog_of_right_le_one]
  | succ fuel ih =>
    intro m hm
    by_cases h1 : m ≤ 1
    · simp [clog2Fuel, h1, Nat.clog_of_right_le_one h1]
    · have h2 : 2 ≤ m := by omega
      simp only [clog2Fuel, if_neg h1]
      rw [ih ((m + 1) / 2) (by omega), Nat.clog_of_two_le (by norm_num) h2]
      norm_num

lemma bitsPerSymbol_eq_clog (n : Nat) : bitsPerSymbol n = Nat.clog 2 n :=
  clog2Fuel_eq_clog n n le_rfl

lemma and_pow_shr (b q : Nat) : (b &&& 2 ^ q) >>> q = (b >>> q) &&& 1 := by
  rw [Nat.and_two_pow, Nat.shiftRight_eq_div_pow, Nat.shiftRight_eq_div_pow,
    Nat.and_one_is_mod, Nat.mul_div_cancel _ (Nat.two_pow_pos q)]
  exact Nat.toNat_testBit b q

lemma shr128 {p : Nat} (hp : p < 8) : (128 : Nat) >>> p = 2 ^ (7 - p) := by
  interval_cases p <;> decide

lemma bit_step (b bitIdx : Nat) :
    (b &&& (128 >>> (bitIdx % 8))) >>> (7 - bitIdx % 8) =
      (b >>> (7 - bitIdx % 8)) &&& 1 := by
  rw [shr128 (Nat.mod_lt _ (by norm_num)), and_pow_shr]

lemma getD_of_getElem? {buf : List Nat} {i b : Nat} (h : buf[i]? = some b) :
    buf.getD i 0 = b := by
  simp [List.getD_eq_getElem?_getD, h]

lemma extractSymbolBits_spec (buf : List Nat) (k : Nat) :
    ∀ acc bitIdx, bitIdx + k ≤ 8 * buf.length →
    extractSymbolBits buf k acc bitIdx (bitIdx / 8) =
      some ((List.range k).foldl (fun a i => (a <<< 1) ||| bitAt buf (bitIdx + i)) acc,
        bitIdx + k, (bitIdx + k) / 8) := by
  induction k with
  | zero =>
    intro acc bitIdx h
    simp [extractSymbolBits]
  | succ k ih =>
    intro acc bitIdx h
    have hlt : bitIdx / 8 < buf.length := by omega
    have hbe : buf[bitIdx / 8]? = some (buf.get ⟨bitIdx / 8, hlt⟩) := by
      simp [List.getElem?_eq_getElem hlt]
    have hbit : bitAt buf bitIdx =
        ((buf.get ⟨bitIdx / 8, hlt⟩) &&& (128 >>> (bitIdx % 8))) >>> (7 - bitIdx % 8) := by
      rw [bitAt, getD_of_getElem? hbe, bit_step]
    have hdiv : (if (bitIdx + 1) % 8 = 0 then bitIdx / 8 + 1 else bitIdx / 8) =
        (bitIdx + 1) / 8 := by
      split <;> omega
    rw [extractSymbolBits, hbe]
    simp only [hdiv]
    rw [ih ((acc <<< 1) |||
        (((buf.get ⟨bitIdx / 8, hlt⟩) &&& (128 >>> (bitIdx % 8))) >>> (7 - bitIdx % 8)))
      (bitIdx + 1) (by omega)]
    have hfold : (List.range (k + 1)).foldl
        (fun a i => (a <<< 1) ||| bitAt buf (bitIdx + i)) acc =
        (List.range k).foldl (fun a i => (a <<< 1) ||| bitAt buf (bitIdx + 1 + i))
          ((acc <<< 1) |||
            (((buf.get ⟨bitIdx / 8, hlt⟩) &&& (128 >>> (bitIdx % 8))) >>> (7 - bitIdx % 8))) := by
      rw [List.range_succ_eq_map, List.foldl_cons, List.foldl_map]
      congr 1
      · funext a i
        rw [show bitIdx + Nat.succ i = bitIdx + 1 + i by omega]
      · rw [Nat.add_zero, hbit]
    rw [hfold]
    have h1 : bitIdx + 1 + k = bitIdx + (k + 1) := by omega
    rw [h1]

lemma range_map_shift {α : Type} (F : Nat → α) (bitIdx bitsPer len : Nat) :
    (List.range (len + 1)).map (fun k => F (bitIdx + k * bitsPer)) =
      F bitIdx :: (List.range len).map (fun k => F (bitIdx + bitsPer + k * bitsPer)) := by
  rw [List.range_succ_eq_map, List.map_cons, List.map_map]
  have h0 : bitIdx + 0 * bitsPer = bitIdx := by ring
  rw [h0]
  have htail : ((fun k => F (bitIdx + k * bitsPer)) ∘ Nat.succ) =
      (fun k => F (bitIdx + bitsPer + k * bitsPer)) := by
    funext k
    show F (bitIdx + (k + 1) * bitsPer) = F (bitIdx + bitsPer + k * bitsPer)
    congr 1
    ring
  rw [htail]

lemma extractSymbols_spec {α : Type} (buf : List Nat) (univ : List α) (bitsPer : Nat)
    (dflt : α) (hu : univ ≠ []) (len : Nat) :
    ∀ bitIdx, bitIdx + bitsPer * len ≤ 8 * buf.length →
    extractSymbols buf univ bitsPer len bitIdx (bitIdx / 8) =
      some ((List.range len).map (fun k =>
        univ.getD (assembleBits buf (bitIdx + k * bitsPer) bitsPer % univ.length) dflt)) := by
  induction len with
  | zero =>
    intro bitIdx h
    simp [extractSymbols]
  | succ len ih =>
    intro bitIdx h
    have hstep : bitsPer * (len + 1) = bitsPer * len + bitsPer := by ring
    have hidx : assembleBits buf bitIdx bitsPer % univ.length < univ.length :=
      Nat.mod_lt _ (List.length_pos.mpr hu)
    have hget : univ[assembleBits buf bitIdx bitsPer % univ.length]? =
        some (univ.getD (assembleBits buf bitIdx bitsPer % univ.length) dflt) := by
      simp [List.getElem?_eq_getElem hidx, List.getD_eq_getElem?_getD]
    rw [extractSymbols, extractSymbolBits_spec buf bitsPer 0 bitIdx (by omega)]
    show (match univ[assembleBits buf bitIdx bitsPer % univ.length]? with
      | none => none
      | some s =>
        match extractSymbols buf univ bitsPer len (bitIdx + bitsPer) ((bitIdx + bitsPer) / 8) with
        | none => none
        | some rest => some (s :: rest)) = _
    rw [hget, ih (bitIdx + bitsPer) (by omega)]
    exact congrArg some (range_map_shift
      (fun s => univ.getD (assembleBits buf s bitsPer % univ.length) dflt)
      bitIdx bitsPer len).symm

lemma joinWithSep_cons (sep : Char) (w : List Char) (ws : List (List Char)) :
    joinWithSep sep (w :: ws) =
      w ++ (if 0 < ws.length then sep :: joinWithSep sep ws else joinWithSep sep ws) := by
  cases ws with
  | nil => simp [joinWithSep]
  | cons x xs => simp [joinWithSep]

lemma buildPassphrase_spec (buf : List Nat) (ws : List (List Char)) (bitsPer : Nat)
    (sep : Char) (hw : ws ≠ []) (len : Nat) :
    ∀ bitIdx, bitIdx + bitsPer * len ≤ 8 * buf.length →
    buildPassphrase buf ws bitsPer sep len bitIdx (bitIdx / 8) =
      some (joinWithSep sep ((List.range len).map (fun k =>
        ws.getD (assembleBits buf (bitIdx + k * bitsPer) bitsPer % ws.length) []))) := by
  induction len with
  | zero =>
    intro bitIdx h
    simp [buildPassphrase, joinWithSep]
  | succ len ih =>
    intro bitIdx h
    have hstep : bitsPer * (len + 1) = bitsPer * len + bitsPer := by ring
    have hidx : assembleBits buf bitIdx bitsPer % ws.length < ws.length :=
      Nat.mod_lt _ (List.length_pos.mpr hw)
    have hget : ws[assembleBits buf bitIdx bitsPer % ws.length]? =
        some (ws.getD (assembleBits buf bitIdx bitsPer % ws.length) []) := by
      simp [List.getElem?_eq_getElem hidx, List.getD_eq_getElem?_getD]
    rw [buildPassphrase, extractSymbolBits_spec buf bitsPer 0 bitIdx (by omega)]
    show (match ws[assembleBits buf bitIdx bitsPer % ws.length]? with
      | none => none
      | some w =>
        match buildPassphrase buf ws bitsPer sep len (bitIdx + bitsPer)
            ((bitIdx + bitsPer) / 8) with
        | none => none
        | some rest => some (w ++ (if len > 0 then sep :: rest else rest))) = _
    rw [hget, ih (bitIdx + bitsPer) (by omega)]
    rw [range_map_shift
      (fun s => ws.getD (assembleBits buf s bitsPer % ws.length) []) bitIdx bitsPer len]
    rw [joinWithSep_cons]
    simp

lemma mem_of_getElem? {α : Type} {l : List α} {i : Nat} {a : α}
    (h : l[i]? = some a) : a ∈ l := by
  have hi : i < l.length := by
    by_contra hc
    rw [List.getElem?_eq_none (by omega)] at h
    exact Option.noConfusion h
  rw [List.getElem?_eq_getElem hi] at h
  cases h
  exact List.getElem_mem hi

lemma extractSymbols_ok {α : Type} (buf : List Nat) (univ : List α) (bitsPer : Nat) :
    ∀ len bitIdx byteIdx out,
    extractSymbols buf univ bitsPer len bitIdx byteIdx = some out →
    out.length = len ∧ ∀ s ∈ out, s ∈ univ := by
  intro len
  induction len with
  | zero =>
    intro bitIdx byteIdx out h
    simp [extractSymbols] at h
    subst h
    simp
  | succ len ih =>
    intro bitIdx byteIdx out h
    rw [extractSymbols] at h
    cases hE : extractSymbolBits buf bitsPer 0 bitIdx byteIdx with
    | none => simp [hE] at h
    | some t =>
      obtain ⟨acc, bitIdx1, byteIdx1⟩ := t
      simp only [hE] at h
      cases hg : univ[acc % univ.length]? with
      | none => simp [hg] at h
      | some s =>
        simp only [hg] at h
        cases hr : extractSymbols buf univ bitsPer len bitIdx1 byteIdx1 with
        | none => simp [hr] at h
        | some rest =>
          simp only [hr, Option.some.injEq] at h
          obtain ⟨hlen, hmem⟩ := ih bitIdx1 byteIdx1 rest hr
          subst h
          refine ⟨by simp [hlen], ?_⟩
          intro x hx
          rcases List.mem_cons.mp hx with hx | hx
          · exact hx ▸ mem_of_getElem? hg
          · exact hmem x hx

lemma buildPassphrase_ok (buf : List Nat) (ws : List (List Char)) (bitsPer : Nat)
    (sep : Char) :
    ∀ len bitIdx byteIdx out,
    buildPassphrase buf ws bitsPer sep len bitIdx byteIdx = some out →
    ∃ wl, wl.length = len ∧ (∀ w ∈ wl, w ∈ ws) ∧ out = joinWithSep sep wl := by
  intro len
  induction len with
  | zero =>
    intro bitIdx byteIdx out h
    simp [buildPassphrase] at h
    exact ⟨[], by simp [joinWithSep, ← h]⟩
  | succ len ih =>
    intro bitIdx byteIdx out h
    rw [buildPassphrase] at h
    cases hE : extractSymbolBits buf bitsPer 0 bitIdx byteIdx with
    | none => simp [hE] at h
    | some t =>
      obtain ⟨acc, bitIdx1, byteIdx1⟩ := t
      simp only [hE] at h
      cases hg : ws[acc % ws.length]? with
      | none => simp [hg] at h
      | some w =>
        simp only [hg] at h
        cases hr : buildPassphrase buf ws bitsPer sep len bitIdx1 byteIdx1 with
        | none => simp [hr] at h
        | some rest =>
          simp only [hr, Option.some.injEq] at h
          obtain ⟨wl, hlen, hmem, hjoin⟩ := ih bitIdx1 byteIdx1 rest hr
          refine ⟨w :: wl, by simp [hlen], ?_, ?_⟩
          · intro x hx
            rcases List.mem_cons.mp hx with hx | hx
            · exact hx ▸ mem_of_getElem? hg
            · exact hmem x hx
          · rw [joinWithSep_cons, ← h, hjoin, hlen]

lemma readFull_ok {n : Nat} {src buf src1 : List Nat}
    (h : readFull n src = .ok (buf, src1)) :
    buf = src.take n ∧ src1 = src.drop n ∧ (n = 0 ∨ n ≤ src.length) := by
  rw [readFull] at h
  by_cases h0 : n = 0
  · rw [if_pos h0] at h
    simp only [Except.ok.injEq, Prod.mk.injEq] at h
    subst h0
    simp [← h.1, ← h.2]
  · rw [if_neg h0] at h
    by_cases h1 : src.length = 0
    · rw [if_pos h1] at h
      exact Except.noConfusion h
    · rw [if_neg h1] at h
      by_cases h2 : src.length < n
      · rw [if_pos h2] at h
        exact Except.noConfusion h
      · rw [if_neg h2] at h
        simp only [Except.ok.injEq, Prod.mk.injEq] at h
        exact ⟨h.1.symm, h.2.symm, Or.inr (by omega)⟩

lemma readFull_short {n : Nat} {src : List Nat} (h0 : 0 < n) (h : src.length < n) :
    ∃ e, readFull n src = .error e := by
  rw [readFull, if_neg (by omega)]
  by_cases h1 : src.length = 0
  · exact ⟨"EOF", by rw [if_pos h1]⟩
  · exact ⟨"unexpected EOF", by rw [if_neg h1, if_pos h]⟩

lemma passwordLoop_ok (charSet : List Char) (bitsPer bytesPer pwLen : Nat) :
    ∀ cnt src pws rest,
    passwordLoop charSet bitsPer bytesPer pwLen cnt src = .ok (pws, rest) →
    pws.length = cnt ∧ rest = src.drop (cnt * bytesPer) ∧
    ∀ pw ∈ pws, pw.length = pwLen ∧ ∀ c ∈ pw, c ∈ charSet := by
  intro cnt
  induction cnt with
  | zero =>
    intro src pws rest h
    simp [passwordLoop] at h
    obtain ⟨h1, h2⟩ := h
    subst h1
    subst h2
    simp
  | succ cnt ih =>
    intro src pws rest h
    rw [passwordLoop] at h
    cases hrf : readFull bytesPer src with
    | error e => simp [hrf] at h
    | ok t =>
      obtain ⟨buf, src1⟩ := t
      simp only [hrf] at h
      cases hx : extractSymbols buf charSet bitsPer pwLen 0 0 with
      | none => simp [hx] at h
      | some pw =>
        simp only [hx] at h
        cases hl : passwordLoop charSet bitsPer bytesPer pwLen cnt src1 with
        | error e => simp [hl] at h
        | ok t2 =>
          obtain ⟨pws1, rest1⟩ := t2
          simp only [hl, Except.ok.injEq, Prod.mk.injEq] at h
          obtain ⟨hp, hr⟩ := h
          obtain ⟨hlen1, hdrop1, hprops⟩ := ih src1 pws1 rest1 hl
          obtain ⟨hbuf, hsrc1, hcond⟩ := readFull_ok hrf
          subst hp hr hsrc1
          refine ⟨by simp [hlen1], ?_, ?_⟩
          · rw [hdrop1, List.drop_drop, show bytesPer + cnt * bytesPer =
              (cnt + 1) * bytesPer by ring]
          · intro pw1 hpw1
            rcases List.mem_cons.mp hpw1 with hpw1 | hpw1
            · subst hpw1
              obtain ⟨ha, hb⟩ := extractSymbols_ok buf charSet bitsPer pwLen 0 0 pw1 hx
              exact ⟨ha, hb⟩
            · exact hprops pw1 hpw1

lemma passphraseLoop_ok (wordSet : List (List Char)) (bitsPer bytesPer wc : Nat)
    (sep : Char) :
    ∀ cnt src phs rest,
    passphraseLoop wordSet bitsPer bytesPer wc sep cnt src = .ok (phs, rest) →
    phs.length = cnt ∧ rest = src.drop (cnt * bytesPer) ∧
    ∀ ph ∈ phs, ∃ wl, wl.length = wc ∧ (∀ w ∈ wl, w ∈ wordSet) ∧
      ph = joinWithSep sep wl := by
  intro cnt
  induction cnt with
  | zero =>
    intro src phs rest h
    simp [passphraseLoop] at h
    obtain ⟨h1, h2⟩ := h
    subst h1
    subst h2
    simp
  | succ cnt ih =>
    intro src phs rest h
    rw [passphraseLoop] at h
    cases hrf : readFull bytesPer src with
    | error e => simp [hrf] at h
    | ok t =>
      obtain ⟨buf, src1⟩ := t
      simp only [hrf] at h
      cases hx : buildPassphrase buf wordSet bitsPer sep wc 0 0 with
      | none => simp [hx] at h
      | some ph =>
        simp only [hx] at h
        cases hl : passphraseLoop wordSet bitsPer bytesPer wc sep cnt src1 with
        | error e => simp [hl] at h
        | ok t2 =>
          obtain ⟨phs1, rest1⟩ := t2
          simp only [hl, Except.ok.injEq, Prod.mk.injEq] at h
          obtain ⟨hp, hr⟩ := h
          obtain ⟨hlen1, hdrop1, hprops⟩ := ih src1 phs1 rest1 hl
          obtain ⟨hbuf, hsrc1, hcond⟩ := readFull_ok hrf
          subst hp hr hsrc1
          refine ⟨by simp [hlen1], ?_, ?_⟩
          · rw [hdrop1, List.drop_drop, show bytesPer + cnt * bytesPer =
              (cnt + 1) * bytesPer by ring]
          · intro ph1 hph1
            rcases List.mem_cons.mp hph1 with hph1 | hph1
            · subst hph1
              exact buildPassphrase_ok buf wordSet bitsPer sep wc 0 0 ph1 hx
            · exact hprops ph1 hph1

lemma passwordLoop_short (charSet : List Char) (bitsPer bytesPer pwLen : Nat) :
    ∀ cnt src, src.length < cnt * bytesPer →
    ∃ e, passwordLoop charSet bitsPer bytesPer pwLen cnt src = .error e := by
  intro cnt
  induction cnt with
  | zero =>
    intro src h
    simp at h
  | succ cnt ih =>
    intro src h
    have hmul : (cnt + 1) * bytesPer = cnt * bytesPer + bytesPer := by ring
    have hb : 0 < bytesPer := by
      rcases Nat.eq_zero_or_pos bytesPer with hz | hp
      · rw [hz] at h; simp at h
      · exact hp
    by_cases hs : src.length < bytesPer
    · obtain ⟨e, he⟩ := readFull_short hb hs
      exact ⟨e, by rw [passwordLoop, he]⟩
    · have hrf : readFull bytesPer src = .ok (src.take bytesPer, src.drop bytesPer) := by
        rw [readFull, if_neg (by omega), if_neg (by omega), if_neg (by omega)]
      have hlen1 : (src.drop bytesPer).length < cnt * bytesPer := by
        rw [List.length_drop]
        omega
      cases hx : extractSymbols (src.take bytesPer) charSet bitsPer pwLen 0 0 with
      | none =>
        refine ⟨"index out of range", ?_⟩
        rw [passwordLoop, hrf]
        simp [hx]
      | some pw =>
        obtain ⟨e, he⟩ := ih (src.drop bytesPer) hlen1
        refine ⟨e, ?_⟩
        rw [passwordLoop, hrf]
        simp [hx, he]

lemma passphraseLoop_short (wordSet : List (List Char)) (bitsPer bytesPer wc : Nat)
    (sep : Char) :
    ∀ cnt src, src.length < cnt * bytesPer →
    ∃ e, passphraseLoop wordSet bitsPer bytesPer wc sep cnt src = .error e := by
  intro cnt
  induction cnt with
  | zero =>
    intro src h
    simp at h
  | succ cnt ih =>
    intro src h
    have hmul : (cnt + 1) * bytesPer = cnt * bytesPer + bytesPer := by ring
    have hb : 0 < bytesPer := by
      rcases Nat.eq_zero_or_pos bytesPer with hz | hp
      · rw [hz] at h; simp at h
      · exact hp
    by_cases hs : src.length < bytesPer
    · obtain ⟨e, he⟩ := readFull_short hb hs
      exact ⟨e, by rw [passphraseLoop, he]⟩
    · have hrf : readFull bytesPer src = .ok (src.take bytesPer, src.drop bytesPer) := by
        rw [readFull, if_neg (by omega), if_neg (by omega), if_neg (by omega)]
      have hlen1 : (src.drop bytesPer).length < cnt * bytesPer := by
        rw [List.length_drop]
        omega
      cases hx : buildPassphrase (src.take bytesPer) wordSet bitsPer sep wc 0 0 with
      | none =>
        refine ⟨"index out of range", ?_⟩
        rw [passphraseLoop, hrf]
        simp [hx]
      | some ph =>
        obtain ⟨e, he⟩ := ih (src.drop bytesPer) hlen1
        refine ⟨e, ?_⟩
        rw [passphraseLoop, hrf]
        simp [hx, he]

lemma joinWithSep_ne_nil (s : Char) (w : List Char) (ws : List (List Char))
    (hw : w ≠ []) : joinWithSep s (w :: ws) ≠ [] := by
  cases ws with
  | nil => simpa [joinWithSep] using hw
  | cons x xs => simp [joinWithSep]

lemma joinWithSep_count (s : Char) :
    ∀ ws : List (List Char), ws ≠ [] → (∀ w ∈ ws, s ∉ w) →
    (joinWithSep s ws).count s = ws.length - 1 := by
  intro ws
  induction ws with
  | nil => intro h; exact absurd rfl h
  | cons w ws ih =>
    intro _ hmem
    cases ws with
    | nil => simp [joinWithSep, List.count_eq_zero.mpr (hmem w (by simp))]
    | cons x xs =>
      have hrec := ih (by simp) (fun u hu => hmem u (List.mem_cons_of_mem _ hu))
      have hw0 : List.count s w = 0 := List.count_eq_zero.mpr (hmem w (by simp))
      show (w ++ s :: joinWithSep s (x :: xs)).count s = (w :: x :: xs).length - 1
      rw [List.count_append, List.count_cons_self, hw0, hrec]
      simp

lemma joinWithSep_head (s : Char) (w : List Char) (ws : List (List Char))
    (hw : w ≠ []) (hs : s ∉ w) : (joinWithSep s (w :: ws)).head? ≠ some s := by
  obtain ⟨c, cs, rfl⟩ : ∃ c cs, w = c :: cs := by
    cases w with
    | nil => exact absurd rfl hw
    | cons c cs => exact ⟨c, cs, rfl⟩
  have hc : ¬ (c = s) := fun h => hs (h ▸ List.mem_cons_self c cs)
  cases ws with
  | nil => simp [joinWithSep, hc]
  | cons x xs => simp [joinWithSep, List.cons_append, hc]

lemma joinWithSep_getLast (s : Char) :
    ∀ ws : List (List Char), ws ≠ [] → (∀ w ∈ ws, s ∉ w) → (∀ w ∈ ws, w ≠ []) →
    (joinWithSep s ws).getLast? ≠ some s := by
  intro ws
  induction ws with
  | nil => intro h; exact absurd rfl h
  | cons w ws ih =>
    intro _ hs hne
    cases ws with
    | nil =>
      show (joinWithSep s [w]).getLast? ≠ some s
      rw [joinWithSep]
      intro hcontr
      exact hs w (by simp) (List.mem_of_getLast?_eq_some hcontr)
    | cons x xs =>
      have hjoin_ne : joinWithSep s (x :: xs) ≠ [] :=
        joinWithSep_ne_nil s x xs (hne x (by simp))
      show (w ++ s :: joinWithSep s (x :: xs)).getLast? ≠ some s
      rw [List.getLast?_append]
      obtain ⟨j, js, hj⟩ : ∃ j js, joinWithSep s (x :: xs) = j :: js := by
        cases hcase : joinWithSep s (x :: xs) with
        | nil => exact absurd hcase hjoin_ne
        | cons j js => exact ⟨j, js, rfl⟩
      rw [hj, List.getLast?_cons_cons]
      have hlast := ih (by simp) (fun u hu => hs u (List.mem_cons_of_mem _ hu))
        (fun u hu => hne u (List.mem_cons_of_mem _ hu))
      rw [hj] at hlast
      cases hKL : (j :: js).getLast? with
      | none =>
        simp only [hKL, Option.none_or]
        intro hcontr
        exact hs w (by simp) (List.mem_of_getLast?_eq_some hcontr)
      | some v =>
        simp only [hKL, Option.or_some]
        intro hcontr
        exact hlast (hKL.trans hcontr)

lemma generatePasswords_ok_inv {cMin cMax lMin lMax count length : Nat}
    {alphabet : List Char} {src : List Nat} {pws : List (List Char)}
    (h : GeneratePasswords cMin cMax lMin lMax count length alphabet src = .ok pws) :
    ∃ rest, passwordLoop alphabet.dedup (bitsPerSymbol (alphabet.dedup).length)
      (bytesForBits (bitsPerSymbol (alphabet.dedup).length * length)) length count src =
      .ok (pws, rest) := by
  rw [GeneratePasswords] at h
  split at h
  · exact Except.noConfusion h
  split at h
  · exact Except.noConfusion h
  split at h
  · exact Except.noConfusion h
  cases hl : passwordLoop alphabet.dedup (bitsPerSymbol (alphabet.dedup).length)
      (bytesForBits (bitsPerSymbol (alphabet.dedup).length * length)) length count src with
  | error e =>
    rw [hl] at h
    exact Except.noConfusion h
  | ok t =>
    obtain ⟨pws0, rest0⟩ := t
    rw [hl] at h
    simp only [Except.ok.injEq] at h
    subst h
    exact ⟨rest0, rfl⟩

lemma generatePassphrases_ok_inv {wMin wMax wcMin wcMax count2 wordCount : Nat}
    {sep : Char} {casing : Nat} {wordList : List (List Char)} {src2 : List Nat}
    {phs : List (List Char)}
    (h : GeneratePassphrases wMin wMax wcMin wcMax count2 wordCount sep casing
      wordList src2 = .ok phs) :
    ∃ rest, passphraseLoop ((wordList.map (applyCasing casing)).dedup)
      (bitsPerSymbol ((wordList.map (applyCasing casing)).dedup).length)
      (bytesForBits (bitsPerSymbol ((wordList.map (applyCasing casing)).dedup).length *
        wordCount)) wordCount sep count2 src2 = .ok (phs, rest) := by
  rw [GeneratePassphrases] at h
  split at h
  · exact Except.noConfusion h
  split at h
  · exact Except.noConfusion h
  split at h
  · exact Except.noConfusion h
  split at h
  · exact Except.noConfusion h
  cases hl : passphraseLoop ((wordList.map (applyCasing casing)).dedup)
      (bitsPerSymbol ((wordList.map (applyCasing casing)).dedup).length)
      (bytesForBits (bitsPerSymbol ((wordList.map (applyCasing casing)).dedup).length *
        wordCount)) wordCount sep count2 src2 with
  | error e =>
    rw [hl] at h
    exact Except.noConfusion h
  | ok t =>
    obtain ⟨phs0, rest0⟩ := t
    rw [hl] at h
    simp only [Except.ok.injEq] at h
    subst h
    exact ⟨rest0, rfl⟩

/-- C1: for every valid generation call, the symbol indices are obtained by
reading the random buffer as a big-endian bitstream (most significant bit
of byte 0 first) with one running bit cursor never reset between symbols,
reading exactly bitsPer consecutive bits per symbol assembled most
significant bit first by left shift and OR, reducing modulo the universe
size; consecutive symbols therefore consume consecutive disjoint bit
ranges and every produced index lies below the universe size. -/
theorem extraction_bitstream_c1 (univ : List Char) (ws : List (List Char))
    (bitsPer len : Nat) (buf : List Nat) (sep : Char)
    (hu : univ ≠ []) (hw : ws ≠ []) (hbuf : bitsPer * len ≤ 8 * buf.length) :
    extractSymbols buf univ bitsPer len 0 0 =
      some ((List.range len).map (fun k =>
        univ.getD (specIndex buf bitsPer univ.length k) ' ')) ∧
    buildPassphrase buf ws bitsPer sep len 0 0 =
      some (joinWithSep sep ((List.range len).map (fun k =>
        ws.getD (specIndex buf bitsPer ws.length k) []))) ∧
    (∀ k, specIndex buf bitsPer univ.length k < univ.length) := by
  have h0 : (0 : Nat) + bitsPer * len ≤ 8 * buf.length := by omega
  refine ⟨?_, ?_, ?_⟩
  · have h := extractSymbols_spec buf univ bitsPer ' ' hu len 0 h0
    simpa [specIndex] using h
  · have h := buildPassphrase_spec buf ws bitsPer sep hw len 0 h0
    simpa [specIndex] using h
  · intro k
    exact Nat.mod_lt _ (List.length_pos.mpr hu)

/-- Witness for C1 at a concrete input: a two-symbol universe, one bit per
symbol and the single-byte buffer 178 = 0b10110010. -/
theorem extraction_bitstream_c1_witness :
    (['a', 'b'] : List Char) ≠ [] ∧
    ([['a'], ['b']] : List (List Char)) ≠ [] ∧
    1 * 8 ≤ 8 * List.length [178] ∧
    (extractSymbols [178] ['a', 'b'] 1 8 0 0 =
      some ((List.range 8).map (fun k =>
        List.getD ['a', 'b'] (specIndex [178] 1 (List.length ['a', 'b']) k) ' ')) ∧
    buildPassphrase [178] [['a'], ['b']] 1 '-' 8 0 0 =
      some (joinWithSep '-' ((List.range 8).map (fun k =>
        List.getD [['a'], ['b']] (specIndex [178] 1 (List.length [['a'], ['b']]) k) []))) ∧
    (∀ k, specIndex [178] 1 (List.length ['a', 'b']) k < List.length ['a', 'b'])) :=
  ⟨by decide, by decide, by decide,
    extraction_bitstream_c1 ['a', 'b'] [['a'], ['b']] 1 8 [178] '-'
      (by decide) (by decide) (by decide)⟩

/-- C10: for every request that passes validation, the extraction loop
never reads the per-artifact buffer out of bounds and never indexes the
universe out of bounds: the running cursor consumes at most
bitsPer * len bits, which is at most 8 times the planned byte count, so
extraction succeeds on a plan-sized buffer, and every index is strictly
below the universe size by the modulo reduction; the extraction layer
itself raises no errors. -/
theorem extraction_safe_c10 (univ : List Char) (ws : List (List Char))
    (bitsPer len : Nat) (buf : List Nat) (sep : Char)
    (hu : univ ≠ []) (hw : ws ≠ [])
    (hbuf : buf.length = bytesForBits (bitsPer * len)) :
    bitsPer * len ≤ 8 * buf.length ∧
    (∃ out, extractSymbols buf univ bitsPer len 0 0 = some out) ∧
    (∃ out, buildPassphrase buf ws bitsPer sep len 0 0 = some out) ∧
    (∀ k, specIndex buf bitsPer univ.length k < univ.length) ∧
    (∀ k, specIndex buf bitsPer ws.length k < ws.length) := by
  have hle : bitsPer * len ≤ 8 * buf.length := by
    rw [hbuf, bytesForBits]
    split <;> omega
  refine ⟨hle, ?_, ?_, ?_, ?_⟩
  · have h := extractSymbols_spec buf univ bitsPer ' ' hu len 0 (by omega)
    rw [Nat.zero_div] at h
    exact ⟨_, h⟩
  · have h := buildPassphrase_spec buf ws bitsPer sep hw len 0 (by omega)
    rw [Nat.zero_div] at h
    exact ⟨_, h⟩
  · intro k
    exact Nat.mod_lt _ (List.length_pos.mpr hu)
  · intro k
    exact Nat.mod_lt _ (List.length_pos.mpr hw)

/-- Witness for C10 at a concrete input: the plan for eight one-bit symbols
allocates one byte and extraction succeeds on it. -/
theorem extraction_safe_c10_witness :
    (['a', 'b'] : List Char) ≠ [] ∧
    ([['a'], ['b']] : List (List Char)) ≠ [] ∧
    List.length [178] = bytesForBits (1 * 8) ∧
    (1 * 8 ≤ 8 * List.length [178] ∧
    (∃ out, extractSymbols [178] ['a', 'b'] 1 8 0 0 = some out) ∧
    (∃ out, buildPassphrase [178] [['a'], ['b']] 1 '-' 8 0 0 = some out) ∧
    (∀ k, specIndex [178] 1 (List.length ['a', 'b']) k < List.length ['a', 'b']) ∧
    (∀ k, specIndex [178] 1 (List.length [['a'], ['b']]) k <
      List.length [['a'], ['b']])) :=
  ⟨by decide, by decide, by decide,
    extraction_safe_c10 ['a', 'b'] [['a'], ['b']] 1 8 [178] '-'
      (by decide) (by decide) (by decide)⟩

/-- C2: for every universe of size n at least 2 and every artifact length,
the bit plan is bitsPerSymbol n = ceiling of log2 n (characterized by
n ≤ 2 ^ bitsPerSymbol n and 2 ^ (bitsPerSymbol n - 1) < n), the byte count
is the ceiling of the bit count divided by 8 with a final partial byte
counted in full, and a successful generation loop consumes exactly
bytesPerArtifact fresh random bytes per artifact from the stream. -/
theorem bit_plan_c2 (n bits : Nat) (cs : List Char) (wset : List (List Char))
    (bp L wc cnt cnt2 : Nat) (sep : Char) (src src2 rest rest2 : List Nat)
    (pws phs : List (List Char))
    (hn : 1 < n)
    (hok : passwordLoop cs bp (bytesForBits (bp * L)) L cnt src = .ok (pws, rest))
    (hok2 : passphraseLoop wset bp (bytesForBits (bp * wc)) wc sep cnt2 src2 =
      .ok (phs, rest2)) :
    (n ≤ 2 ^ bitsPerSymbol n ∧ 2 ^ (bitsPerSymbol n - 1) < n) ∧
    bytesForBits bits = (bits + 7) / 8 ∧
    rest = src.drop (cnt * bytesForBits (bp * L)) ∧
    rest2 = src2.drop (cnt2 * bytesForBits (bp * wc)) := by
  refine ⟨⟨?_, ?_⟩, ?_, ?_, ?_⟩
  · rw [bitsPerSymbol_eq_clog]
    exact Nat.le_pow_clog (by norm_num) n
  · rw [bitsPerSymbol_eq_clog]
    exact Nat.pow_pred_clog_lt_self (by norm_num) hn
  · rw [bytesForBits]
    split <;> omega
  · exact (passwordLoop_ok cs bp (bytesForBits (bp * L)) L cnt src pws rest hok).2.1
  · exact (passphraseLoop_ok wset bp (bytesForBits (bp * wc)) wc sep cnt2 src2
      phs rest2 hok2).2.1

/-- Witness for C2 at concrete inputs: universe size 5 needs 3 bits, 12 bits
need 2 bytes, and one artifact of eight one-bit symbols consumes exactly
one byte of the stream. -/
theorem bit_plan_c2_witness :
    1 < 5 ∧
    passwordLoop ['a', 'b'] 1 (bytesForBits (1 * 8)) 8 1 [178] =
      .ok ([['b', 'a', 'b', 'b', 'a', 'a', 'b', 'a']], []) ∧
    passphraseLoop [['a'], ['b']] 1 (bytesForBits (1 * 2)) 2 '-' 1 [178] =
      .ok ([['b', '-', 'a']], []) ∧
    ((5 ≤ 2 ^ bitsPerSymbol 5 ∧ 2 ^ (bitsPerSymbol 5 - 1) < 5) ∧
     bytesForBits 12 = (12 + 7) / 8 ∧
     ([] : List Nat) = List.drop (1 * bytesForBits (1 * 8)) [178] ∧
     ([] : List Nat) = List.drop (1 * bytesForBits (1 * 2)) [178]) :=
  ⟨by decide, rfl, rfl,
    bit_plan_c2 5 12 ['a', 'b'] [['a'], ['b']] 1 8 2 1 1 '-' [178] [178] [] []
      [['b', 'a', 'b', 'b', 'a', 'a', 'b', 'a']] [['b', '-', 'a']]
      (by decide) rfl rfl⟩

/-- C3: every successful call returns exactly count artifacts; each artifact
has exactly the requested number of logical symbols (code points for
passwords, words for passphrases) and every symbol belongs to the
deduplicated universe derived from the input, post-casing for words. -/
theorem counts_membership_c3 (cMin cMax lMin lMax count length : Nat)
    (alphabet : List Char) (src : List Nat) (pws : List (List Char))
    (wMin wMax wcMin wcMax count2 wordCount : Nat) (sep : Char) (casing : Nat)
    (wordList : List (List Char)) (src2 : List Nat) (phs : List (List Char))
    (hP : GeneratePasswords cMin cMax lMin lMax count length alphabet src = .ok pws)
    (hQ : GeneratePassphrases wMin wMax wcMin wcMax count2 wordCount sep casing
      wordList src2 = .ok phs) :
    (pws.length = count ∧
      ∀ pw ∈ pws, pw.length = length ∧ ∀ c ∈ pw, c ∈ alphabet.dedup) ∧
    (phs.length = count2 ∧ ∀ ph ∈ phs, ∃ wl, wl.length = wordCount ∧
      (∀ w ∈ wl, w ∈ (wordList.map (applyCasing casing)).dedup) ∧
      ph = joinWithSep sep wl) := by
  obtain ⟨rest, hl⟩ := generatePasswords_ok_inv hP
  obtain ⟨rest2, hl2⟩ := generatePassphrases_ok_inv hQ
  obtain ⟨hlen, _, hprops⟩ := passwordLoop_ok _ _ _ _ _ _ _ _ hl
  obtain ⟨hlen2, _, hprops2⟩ := passphraseLoop_ok _ _ _ _ _ _ _ _ _ hl2
  exact ⟨⟨hlen, hprops⟩, ⟨hlen2, hprops2⟩⟩

/-- Witness for C3 at concrete inputs: one eight-character password over a
two-character alphabet and one two-word passphrase over a two-word list. -/
theorem counts_membership_c3_witness :
    GeneratePasswords 1 1000 1 1000 1 8 ['a', 'b'] [178] =
      .ok [['b', 'a', 'b', 'b', 'a', 'a', 'b', 'a']] ∧
    GeneratePassphrases 1 1000 1 1000 1 2 '-' PassphraseCasingNone
      [['a'], ['b']] [178] = .ok [['b', '-', 'a']] ∧
    (((([['b', 'a', 'b', 'b', 'a', 'a', 'b', 'a']] : List (List Char)).length = 1 ∧
      ∀ pw ∈ ([['b', 'a', 'b', 'b', 'a', 'a', 'b', 'a']] : List (List Char)),
        pw.length = 8 ∧ ∀ c ∈ pw, c ∈ (['a', 'b'] : List Char).dedup) ∧
     (([['b', '-', 'a']] : List (List Char)).length = 1 ∧
      ∀ ph ∈ ([['b', '-', 'a']] : List (List Char)), ∃ wl, wl.length = 2 ∧
        (∀ w ∈ wl, w ∈ (([['a'], ['b']] : List (List Char)).map
          (applyCasing PassphraseCasingNone)).dedup) ∧
        ph = joinWithSep '-' wl))) :=
  ⟨rfl, rfl,
    counts_membership_c3 1 1000 1 1000 1 8 ['a', 'b'] [178]
      [['b', 'a', 'b', 'b', 'a', 'a', 'b', 'a']]
      1 1000 1 1000 1 2 '-' PassphraseCasingNone [['a'], ['b']] [178]
      [['b', '-', 'a']] rfl rfl⟩

/-- C4: if the random source cannot supply the full requested length for
the artifacts of a call, the whole call returns an error and no output at
all; no partial list is returned (the result type carries either an error
or the complete list, never both). -/
theorem all_or_nothing_c4 (cMin cMax lMin lMax count length : Nat)
    (alphabet : List Char) (src : List Nat)
    (wMin wMax wcMin wcMax count2 wordCount : Nat) (sep : Char) (casing : Nat)
    (wordList : List (List Char)) (src2 : List Nat)
    (h1 : src.length <
      count * bytesForBits (bitsPerSymbol (alphabet.dedup).length * length))
    (h2 : src2.length < count2 * bytesForBits (bitsPerSymbol
      ((wordList.map (applyCasing casing)).dedup).length * wordCount)) :
    (∃ e, GeneratePasswords cMin cMax lMin lMax count length alphabet src =
      .error e) ∧
    (∃ e, GeneratePassphrases wMin wMax wcMin wcMax count2 wordCount sep casing
      wordList src2 = .error e) := by
  constructor
  · rw [GeneratePasswords]
    split
    · exact ⟨_, rfl⟩
    split
    · exact ⟨_, rfl⟩
    split
    · exact ⟨_, rfl⟩
    obtain ⟨e, he⟩ := passwordLoop_short alphabet.dedup
      (bitsPerSymbol (alphabet.dedup).length)
      (bytesForBits (bitsPerSymbol (alphabet.dedup).length * length))
      length count src h1
    exact ⟨e, by simp [he]⟩
  · rw [GeneratePassphrases]
    split
    · exact ⟨_, rfl⟩
    split
    · exact ⟨_, rfl⟩
    split
    · exact ⟨_, rfl⟩
    split
    · exact ⟨_, rfl⟩
    obtain ⟨e, he⟩ := passphraseLoop_short ((wordList.map (applyCasing casing)).dedup)
      (bitsPerSymbol ((wordList.map (applyCasing casing)).dedup).length)
      (bytesForBits (bitsPerSymbol
        ((wordList.map (applyCasing casing)).dedup).length * wordCount))
      wordCount sep count2 src2 h2
    exact ⟨e, by simp [he]⟩

/-- Witness for C4 at concrete inputs: an empty random source makes both
otherwise valid calls fail with an error. -/
theorem all_or_nothing_c4_witness :
    List.length ([] : List Nat) <
      1 * bytesForBits (bitsPerSymbol ((['a', 'b'] : List Char).dedup).length * 8) ∧
    List.length ([] : List Nat) < 1 * bytesForBits (bitsPerSymbol
      ((([['a'], ['b']] : List (List Char)).map
        (applyCasing PassphraseCasingNone)).dedup).length * 2) ∧
    ((∃ e, GeneratePasswords 1 1000 1 1000 1 8 ['a', 'b'] [] = .error e) ∧
     (∃ e, GeneratePassphrases 1 1000 1 1000 1 2 '-' PassphraseCasingNone
       [['a'], ['b']] [] = .error e)) :=
  ⟨by decide, by decide,
    all_or_nothing_c4 1 1000 1 1000 1 8 ['a', 'b'] []
      1 1000 1 1000 1 2 '-' PassphraseCasingNone [['a'], ['b']] []
      (by decide) (by decide)⟩

lemma msg_ne_of_head (p q a b c d : String) (cp cq : Char)
    (hp : p.data.head? = some cp) (hq : q.data.head? = some cq) (hne : cp ≠ cq) :
    p ++ a ++ " and at most " ++ b ≠ q ++ c ++ " and at most " ++ d := by
  intro h
  have hd := congrArg (fun s : String => s.data.head?) h
  simp only [String.data_append, List.head?_append, hp, hq, Option.or_some] at hd
  exact hne (Option.some.inj hd)

/-- C5 counterexample: with the title casing policy the word list
containing Alfa and BRAVO does not deduplicate to Alfa and Bravo as the
claim states; the title transform maps only the first letter of a word to
title case and leaves the remainder unaffected, so BRAVO stays BRAVO and
Bravo is not in the universe. -/
theorem casing_title_c5_counterexample :
    (['B', 'R', 'A', 'V', 'O'] : List Char) ∈
      (([['A', 'l', 'f', 'a'], ['B', 'R', 'A', 'V', 'O']] : List (List Char)).map
        (applyCasing PassphraseCasingTitle)).dedup ∧
    (['B', 'r', 'a', 'v', 'o'] : List Char) ∉
      (([['A', 'l', 'f', 'a'], ['B', 'R', 'A', 'V', 'O']] : List (List Char)).map
        (applyCasing PassphraseCasingTitle)).dedup := by
  decide

/-- C5 amended: deduplication occurs after the casing transform, so words
that collide post-transform collapse to one universe entry; the lowercase
policy turns Alfa and BRAVO into the universe of alfa and bravo; the title
policy maps only the first letter of each word to title case leaving the
remainder unchanged, so Alfa and BRAVO yield the universe of Alfa and
BRAVO; the none policy keeps words byte-for-byte as provided. -/
theorem casing_dedup_c5 (casing : Nat) (wordList : List (List Char))
    (w w1 : List Char) (w2 : List Char)
    (hmem : w ∈ (wordList.map (applyCasing casing)).dedup)
    (h1 : w1 ∈ wordList) :
    ((wordList.map (applyCasing casing)).dedup).Nodup ∧
    applyCasing casing w1 ∈ (wordList.map (applyCasing casing)).dedup ∧
    (∃ v ∈ wordList, w = applyCasing casing v) ∧
    (([['A', 'l', 'f', 'a'], ['B', 'R', 'A', 'V', 'O']] : List (List Char)).map
      (applyCasing PassphraseCasingLower)).dedup =
        [['a', 'l', 'f', 'a'], ['b', 'r', 'a', 'v', 'o']] ∧
    (([['A', 'l', 'f', 'a'], ['B', 'R', 'A', 'V', 'O']] : List (List Char)).map
      (applyCasing PassphraseCasingTitle)).dedup =
        [['A', 'l', 'f', 'a'], ['B', 'R', 'A', 'V', 'O']] ∧
    (([['A'], ['a']] : List (List Char)).map
      (applyCasing PassphraseCasingLower)).dedup = [['a']] ∧
    applyCasing PassphraseCasingNone w2 = w2 := by
  refine ⟨List.nodup_dedup _, ?_, ?_, by decide, by decide, by decide, rfl⟩
  · exact List.mem_dedup.mpr (List.mem_map_of_mem _ h1)
  · obtain ⟨v, hv, hw⟩ := List.mem_map.mp (List.mem_dedup.mp hmem)
    exact ⟨v, hv, hw.symm⟩

/-- Witness for C5 at a concrete input: a singleton word list under the
lowercase policy. -/
theorem casing_dedup_c5_witness :
    (['b'] : List Char) ∈ (([['b']] : List (List Char)).map
      (applyCasing PassphraseCasingLower)).dedup ∧
    (['b'] : List Char) ∈ ([['b']] : List (List Char)) ∧
    ((((([['b']] : List (List Char)).map (applyCasing PassphraseCasingLower)).dedup).Nodup ∧
     applyCasing PassphraseCasingLower ['b'] ∈
       (([['b']] : List (List Char)).map (applyCasing PassphraseCasingLower)).dedup ∧
     (∃ v ∈ ([['b']] : List (List Char)), (['b'] : List Char) =
       applyCasing PassphraseCasingLower v) ∧
     (([['A', 'l', 'f', 'a'], ['B', 'R', 'A', 'V', 'O']] : List (List Char)).map
       (applyCasing PassphraseCasingLower)).dedup =
         [['a', 'l', 'f', 'a'], ['b', 'r', 'a', 'v', 'o']] ∧
     (([['A', 'l', 'f', 'a'], ['B', 'R', 'A', 'V', 'O']] : List (List Char)).map
       (applyCasing PassphraseCasingTitle)).dedup =
         [['A', 'l', 'f', 'a'], ['B', 'R', 'A', 'V', 'O']] ∧
     (([['A'], ['a']] : List (List Char)).map
       (applyCasing PassphraseCasingLower)).dedup = [['a']] ∧
     applyCasing PassphraseCasingNone (['x'] : List Char) = ['x'])) :=
  ⟨by decide, by decide,
    casing_dedup_c5 PassphraseCasingLower [['b']] ['b'] ['b'] ['x']
      (by decide) (by decide)⟩

/-- C6: a password alphabet with fewer than 2 unique characters after
deduplication, and a passphrase word list with fewer than 2 unique words
after casing normalization and deduplication, fail with an invalid
universe error whose message states the minimum required, and return no
output. -/
theorem invalid_universe_c6 (cMin cMax lMin lMax count length : Nat)
    (alphabet : List Char) (src : List Nat)
    (wMin wMax wcMin wcMax count2 wordCount : Nat) (sep : Char) (casing : Nat)
    (wordList : List (List Char)) (src2 : List Nat)
    (hc1 : cMin ≤ count) (hc2 : count ≤ cMax)
    (hl1 : lMin ≤ length) (hl2 : length ≤ lMax)
    (ha : (alphabet.dedup).length < AlphabetLengthMin)
    (hd1 : wMin ≤ count2) (hd2 : count2 ≤ wMax)
    (he1 : wcMin ≤ wordCount) (he2 : wordCount ≤ wcMax)
    (hcase : casing = PassphraseCasingLower ∨ casing = PassphraseCasingUpper ∨
      casing = PassphraseCasingTitle ∨ casing = PassphraseCasingNone)
    (hw : ((wordList.map (applyCasing casing)).dedup).length < WordListLengthMin) :
    GeneratePasswords cMin cMax lMin lMax count length alphabet src =
      .error "alphabet must contain at least 2 unique characters" ∧
    GeneratePassphrases wMin wMax wcMin wcMax count2 wordCount sep casing
      wordList src2 = .error "word list must contain at least 2 unique words" := by
  constructor
  · rw [GeneratePasswords, if_neg (by omega), if_neg (by omega), if_pos ha]
    rfl
  · rw [GeneratePassphrases, if_neg (by omega), if_neg (by omega),
      if_neg (not_not_intro hcase), if_pos hw]
    rfl

/-- Witness for C6 at the concrete failing inputs of the claim: the
alphabet x and the word list a, a. -/
theorem invalid_universe_c6_witness :
    (1 : Nat) ≤ 1 ∧ (1 : Nat) ≤ 1000 ∧ (1 : Nat) ≤ 8 ∧ (8 : Nat) ≤ 1000 ∧
    ((['x'] : List Char).dedup).length < AlphabetLengthMin ∧
    ((([['a'], ['a']] : List (List Char)).map
      (applyCasing PassphraseCasingNone)).dedup).length < WordListLengthMin ∧
    (GeneratePasswords 1 1000 1 1000 1 8 ['x'] [] =
      .error "alphabet must contain at least 2 unique characters" ∧
    GeneratePassphrases 1 1000 1 1000 1 2 '-' PassphraseCasingNone
      [['a'], ['a']] [] =
      .error "word list must contain at least 2 unique words") :=
  ⟨by decide, by decide, by decide, by decide, by decide, by decide,
    invalid_universe_c6 1 1000 1 1000 1 8 ['x'] [] 1 1000 1 1000 1 2 '-'
      PassphraseCasingNone [['a'], ['a']] []
      (by decide) (by decide) (by decide) (by decide) (by decide)
      (by decide) (by decide) (by decide) (by decide)
      (by decide) (by decide)⟩

/-- C7: a count outside the configured bounds fails with an out of range
error naming the violated bounds, a length or word count outside its
bounds fails with a distinct message naming its bounds, and no output is
returned; in particular length 0 with minimum 1 fails (see the witness). -/
theorem out_of_range_c7 (cMin cMax lMin lMax count length : Nat)
    (alphabet : List Char) (src : List Nat)
    (wMin wMax wcMin wcMax count2 wordCount : Nat) (sep : Char) (casing : Nat)
    (wordList : List (List Char)) (src2 : List Nat) :
    (count < cMin ∨ count > cMax →
      GeneratePasswords cMin cMax lMin lMax count length alphabet src =
        .error ("count must be at least " ++ toString cMin ++
          " and at most " ++ toString cMax)) ∧
    (cMin ≤ count → count ≤ cMax → (length < lMin ∨ length > lMax) →
      GeneratePasswords cMin cMax lMin lMax count length alphabet src =
        .error ("length must be at least " ++ toString lMin ++
          " and at most " ++ toString lMax)) ∧
    ("count must be at least " ++ toString cMin ++ " and at most " ++
      toString cMax) ≠
      ("length must be at least " ++ toString lMin ++ " and at most " ++
        toString lMax) ∧
    (count2 < wMin ∨ count2 > wMax →
      GeneratePassphrases wMin wMax wcMin wcMax count2 wordCount sep casing
        wordList src2 =
        .error ("count must be at least " ++ toString wMin ++
          " and at most " ++ toString wMax)) ∧
    (wMin ≤ count2 → count2 ≤ wMax → (wordCount < wcMin ∨ wordCount > wcMax) →
      GeneratePassphrases wMin wMax wcMin wcMax count2 wordCount sep casing
        wordList src2 =
        .error ("word count must be at least " ++ toString wcMin ++
          " and at most " ++ toString wcMax)) ∧
    ("count must be at least " ++ toString wMin ++ " and at most " ++
      toString wMax) ≠
      ("word count must be at least " ++ toString wcMin ++ " and at most " ++
        toString wcMax) := by
  refine ⟨?_, ?_, ?_, ?_, ?_, ?_⟩
  · intro h
    rw [GeneratePasswords, if_pos h]
  · intro h1 h2 h3
    rw [GeneratePasswords, if_neg (by omega), if_pos h3]
  · exact msg_ne_of_head "count must be at least " "length must be at least "
      (toString cMin) (toString cMax) (toString lMin) (toString lMax) 'c' 'l'
      rfl rfl (by decide)
  · intro h
    rw [GeneratePassphrases, if_pos h]
  · intro h1 h2 h3
    rw [GeneratePassphrases, if_neg (by omega), if_pos h3]
  · exact msg_ne_of_head "count must be at least " "word count must be at least "
      (toString wMin) (toString wMax) (toString wcMin) (toString wcMax) 'c' 'w'
      rfl rfl (by decide)

/-- Witness for C7 at concrete inputs: count 0 fails the count check,
length 0 with minimum 1 fails the length check, word count 0 fails the
word count check, and the two messages are distinct. -/
theorem out_of_range_c7_witness :
    GeneratePasswords 1 1000 1 1000 0 8 ['a', 'b'] [] =
      .error "count must be at least 1 and at most 1000" ∧
    GeneratePasswords 1 1000 1 1000 1 0 ['a', 'b'] [] =
      .error "length must be at least 1 and at most 1000" ∧
    ("count must be at least 1 and at most 1000" : String) ≠
      "length must be at least 1 and at most 1000" ∧
    GeneratePassphrases 1 1000 1 1000 1001 2 '-' PassphraseCasingNone
      [['a'], ['b']] [] = .error "count must be at least 1 and at most 1000" ∧
    GeneratePassphrases 1 1000 1 1000 1 0 '-' PassphraseCasingNone
      [['a'], ['b']] [] = .error "word count must be at least 1 and at most 1000" :=
  ⟨(out_of_range_c7 1 1000 1 1000 0 8 ['a', 'b'] [] 1 1000 1 1000 1001 2 '-'
      PassphraseCasingNone [['a'], ['b']] []).1 (by decide),
   (out_of_range_c7 1 1000 1 1000 1 0 ['a', 'b'] [] 1 1000 1 1000 1001 2 '-'
      PassphraseCasingNone [['a'], ['b']] []).2.1 (by decide) (by decide)
      (by decide),
   (out_of_range_c7 1 1000 1 1000 1 0 ['a', 'b'] [] 1 1000 1 1000 1001 2 '-'
      PassphraseCasingNone [['a'], ['b']] []).2.2.1,
   (out_of_range_c7 1 1000 1 1000 1 0 ['a', 'b'] [] 1 1000 1 1000 1001 2 '-'
      PassphraseCasingNone [['a'], ['b']] []).2.2.2.1 (by decide),
   (out_of_range_c7 1 1000 1 1000 1 8 ['a', 'b'] [] 1 1000 1 1000 1 0 '-'
      PassphraseCasingNone [['a'], ['b']] []).2.2.2.2.1 (by decide) (by decide)
      (by decide)⟩

/-- C8: every returned passphrase is the join of its extracted words with
exactly one separator between each pair of consecutive words; for words
free of the separator the join holds exactly length minus one separator
occurrences and never starts or ends with the separator. -/
theorem join_c8 (wMin wMax wcMin wcMax count2 wordCount : Nat) (sep : Char)
    (casing : Nat) (wordList : List (List Char)) (src2 : List Nat)
    (phs : List (List Char))
    (hQ : GeneratePassphrases wMin wMax wcMin wcMax count2 wordCount sep casing
      wordList src2 = .ok phs) :
    (∀ ph ∈ phs, ∃ wl, wl.length = wordCount ∧
      (∀ w ∈ wl, w ∈ (wordList.map (applyCasing casing)).dedup) ∧
      ph = joinWithSep sep wl) ∧
    (∀ (s : Char) (ws : List (List Char)), ws ≠ [] → (∀ w ∈ ws, s ∉ w) →
      (joinWithSep s ws).count s = ws.length - 1) ∧
    (∀ (s : Char) (ws : List (List Char)), ws ≠ [] → (∀ w ∈ ws, s ∉ w) →
      (∀ w ∈ ws, w ≠ []) →
      (joinWithSep s ws).head? ≠ some s ∧ (joinWithSep s ws).getLast? ≠ some s) := by
  refine ⟨?_, joinWithSep_count, ?_⟩
  · obtain ⟨rest2, hl2⟩ := generatePassphrases_ok_inv hQ
    exact (passphraseLoop_ok _ _ _ _ _ _ _ _ _ hl2).2.2
  · intro s ws hne hs hnil
    refine ⟨?_, joinWithSep_getLast s ws hne hs hnil⟩
    obtain ⟨w, ws1, rfl⟩ : ∃ w ws1, ws = w :: ws1 := by
      cases ws with
      | nil => exact absurd rfl hne
      | cons w ws1 => exact ⟨w, ws1, rfl⟩
    exact joinWithSep_head s w ws1 (hnil w (by simp)) (hs w (by simp))

/-- Witness for C8 at a concrete input: one two-word passphrase joined with
a dash. -/
theorem join_c8_witness :
    GeneratePassphrases 1 1000 1 1000 1 2 '-' PassphraseCasingNone
      [['a'], ['b']] [178] = .ok [['b', '-', 'a']] ∧
    ((∀ ph ∈ ([['b', '-', 'a']] : List (List Char)), ∃ wl, wl.length = 2 ∧
      (∀ w ∈ wl, w ∈ (([['a'], ['b']] : List (List Char)).map
        (applyCasing PassphraseCasingNone)).dedup) ∧
      ph = joinWithSep '-' wl) ∧
    (∀ (s : Char) (ws : List (List Char)), ws ≠ [] → (∀ w ∈ ws, s ∉ w) →
      (joinWithSep s ws).count s = ws.length - 1) ∧
    (∀ (s : Char) (ws : List (List Char)), ws ≠ [] → (∀ w ∈ ws, s ∉ w) →
      (∀ w ∈ ws, w ≠ []) →
      (joinWithSep s ws).head? ≠ some s ∧ (joinWithSep s ws).getLast? ≠ some s)) :=
  ⟨rfl, join_c8 1 1000 1 1000 1 2 '-' PassphraseCasingNone [['a'], ['b']] [178]
    [['b', '-', 'a']] rfl⟩

/-- C9: any casing value other than the four selectors makes
GeneratePassphrases fail with the invalid casing message, returning no
output, for all word lists and random sources alike; in particular the
result does not depend on the word list or the random source, so the
failure happens before universe construction and before any random read. -/
theorem invalid_casing_c9 (wMin wMax wcMin wcMax count wordCount : Nat)
    (sep : Char) (casing : Nat) (wordList : List (List Char)) (src : List Nat)
    (hc1 : wMin ≤ count) (hc2 : count ≤ wMax)
    (hw1 : wcMin ≤ wordCount) (hw2 : wordCount ≤ wcMax)
    (hbad : ¬ (casing = PassphraseCasingLower ∨ casing = PassphraseCasingUpper ∨
      casing = PassphraseCasingTitle ∨ casing = PassphraseCasingNone)) :
    GeneratePassphrases wMin wMax wcMin wcMax count wordCount sep casing
      wordList src = .error "invalid word casing" ∧
    ∀ (wordList2 : List (List Char)) (src2 : List Nat),
      GeneratePassphrases wMin wMax wcMin wcMax count wordCount sep casing
        wordList src = GeneratePassphrases wMin wMax wcMin wcMax count wordCount
        sep casing wordList2 src2 := by
  have key : ∀ (wl : List (List Char)) (s : List Nat),
      GeneratePassphrases wMin wMax wcMin wcMax count wordCount sep casing wl s =
        .error "invalid word casing" := by
    intro wl s
    rw [GeneratePassphrases, if_neg (by omega), if_neg (by omega), if_pos hbad]
  exact ⟨key wordList src, fun wl2 s2 => (key wordList src).trans (key wl2 s2).symm⟩

/-- Witness for C9 at a concrete input: the casing value 255 used by the
invalid casing test. -/
theorem invalid_casing_c9_witness :
    (1 : Nat) ≤ 1 ∧ (1 : Nat) ≤ 1000 ∧ (1 : Nat) ≤ 2 ∧ (2 : Nat) ≤ 1000 ∧
    ¬ ((255 : Nat) = PassphraseCasingLower ∨ (255 : Nat) = PassphraseCasingUpper ∨
      (255 : Nat) = PassphraseCasingTitle ∨ (255 : Nat) = PassphraseCasingNone) ∧
    (GeneratePassphrases 1 1000 1 1000 1 2 '-' 255 [['a'], ['b']] [178] =
      .error "invalid word casing" ∧
    ∀ (wordList2 : List (List Char)) (src2 : List Nat),
      GeneratePassphrases 1 1000 1 1000 1 2 '-' 255 [['a'], ['b']] [178] =
        GeneratePassphrases 1 1000 1 1000 1 2 '-' 255 wordList2 src2) :=
  ⟨by decide, by decide, by decide, by decide, by decide,
    invalid_casing_c9 1 1000 1 1000 1 2 '-' 255 [['a'], ['b']] [178]
      (by decide) (by decide) (by decide) (by decide) (by decide)⟩

end Passgen
